import Mathlib

/-!
# vossibility-collector: live message handler and sync command

A shallow embedding of `cmd/vossibility-collector/live.go`, `sync.go` and
`client.go`.  Go functions with side effects become functions that return the
ordered list of calls they make to their collaborators (`Call`) together with
their outcome; a Go pointer that may be nil is an `Option`; a Go `error` is an
`Option GoError` (`none` is the nil error); a run-time panic is
`Outcome.panicked`.
-/

namespace Vossibility

/-! ## Values of the Go runtime and of the libraries the program uses -/

/-- Byte strings (`[]byte`, `json.RawMessage`), written as text. -/
abbrev Bytes := String

/-- Go `error` values.  `ext` is an error produced by a collaborator;
`Errorf` is `fmt.Errorf(format, [number,] cause)`. -/
inductive GoError where
  | ext (msg : String)
  | Errorf (format : String) (number : Option Int) (cause : GoError)
  deriving DecidableEq, Repr

/-- How a Go call ends: it returns a value, or it panics. -/
inductive Outcome (α : Type) where
  | returned (v : α)
  | panicked
  deriving DecidableEq, Repr

/-- The generic tree `simplejson` and `encoding/json` decode into
(`interface{}`): null, booleans, numbers (integers here), strings, sequences
and string-keyed mappings. -/
inductive Json where
  | null
  | bool (b : Bool)
  | num (n : Int)
  | str (s : String)
  | arr (xs : List Json)
  | obj (fields : List (String × Json))
  deriving Repr

instance : Inhabited Json := ⟨Json.null⟩

/-- Value of a key in a mapping, the first binding of the key. -/
def getField (k : String) : List (String × Json) → Option Json
  | [] => none
  | (k0, v0) :: rest => if k0 = k then some v0 else getField k rest

/-- Bind a key in a mapping: `curr[k] = v`. -/
def setField (k : String) (v : Json) : List (String × Json) → List (String × Json)
  | [] => [(k, v)]
  | (k0, v0) :: rest => if k0 = k then (k, v) :: rest else (k0, v0) :: setField k v rest

/-- The mapping held by a value; a value that is no mapping holds none
(`j.data.(map[string]interface{})`). -/
def Json.fields : Json → List (String × Json)
  | .obj fs => fs
  | _ => []

/-- `simplejson`: `j.Get(key)` is the value under `key`, the nil value when
`j` is no mapping or has no such key. -/
def Json.Get (j : Json) (key : String) : Json :=
  (getField key j.fields).getD .null

/-- Range of Go `int` on a 64-bit platform. -/
def inInt64 (n : Int) : Bool := decide (-(2 : Int) ^ 63 ≤ n) && decide (n < (2 : Int) ^ 63)

/-- `simplejson`: `j.MustInt()` with no default argument is the integer held
by `j`, and `0` when `j` holds no integer. -/
def Json.MustInt : Json → Int
  | .num n => if inInt64 n then n else 0
  | _ => 0

/-- Resolution of an attribute path: the value reached by following the keys
through nested mappings, `none` when a key is missing on the way. -/
def Json.getPath : Json → List String → Option Json
  | j, [] => some j
  | j, k :: ks =>
    match getField k j.fields with
    | some c => c.getPath ks
    | none => none

/-- Write at an attribute path: intermediate values that are missing or are no
mappings are replaced by fresh mappings, the last key is bound to the value. -/
def Json.setPath : Json → List String → Json → Json
  | _, [], v => v
  | j, k :: ks, v =>
    let child := (getField k j.fields).getD (.obj [])
    .obj (setField k (child.setPath ks v) j.fields)

/-- Split a dotted attribute path at the dots, one piece per key. -/
def splitDots : List Char → List Char → List String
  | acc, [] => [String.mk acc.reverse]
  | acc, c :: cs => if c = '.' then String.mk acc.reverse :: splitDots [] cs else splitDots (c :: acc) cs

/-- Keys of a dotted attribute path (`strings.Split(path, ".")`). -/
def splitPath (path : String) : List String := splitDots [] path.data

/-- A point in time, as nanoseconds since the Unix epoch. -/
structure Time where
  unixNano : Int
  deriving DecidableEq, Repr

/-- Go `time.Unix(sec, nsec)`. -/
def Time.Unix (sec nsec : Int) : Time := ⟨sec * 1000000000 + nsec⟩

/-! ## Data model of the collector -/

/-- Modelled from the spec: the `Blob` type is declared outside the sources.
A normalized event record: its kind (the Go field `Type`), the delivery id,
the semi-structured payload and the time of the event. -/
structure Blob where
  Kind : String
  ID : String
  Data : Json
  Timestamp : Time
  deriving Repr

/-- Modelled from the spec: `Blob.HasAttribute` is defined outside the sources.
True if the dotted attribute path resolves to a present value. -/
def Blob.HasAttribute (b : Blob) (path : String) : Bool :=
  (b.Data.getPath (splitPath path)).isSome

/-- Modelled from the spec: `Blob.Push` is defined outside the sources.
Sets or overwrites the attribute at the dotted path. -/
def Blob.Push (b : Blob) (path : String) (value : Json) : Blob :=
  { b with Data := b.Data.setPath (splitPath path) value }

/-- Modelled from the spec: the `Repository` type is declared outside the
sources.  An upstream owner/name pair and its subscribed event kinds. -/
structure Repository where
  User : String
  Repo : String
  Events : List String
  deriving DecidableEq, Repr

/-- Modelled from the spec: `Repository.IsSubscribed` is defined outside the
sources.  Whether the event kind is in the subscription set. -/
def Repository.IsSubscribed (r : Repository) (event : String) : Bool :=
  decide (event ∈ r.Events)

/-- Modelled from the spec: the destination constants are declared outside the
sources.  The two destinations of the store. -/
inductive Storage where
  | StoreSnapshot
  | StoreLiveEvent
  deriving DecidableEq, Repr

/-- Modelled from the spec: the event-kind constant is declared outside the
sources.  The kind of pull-request events, as GitHub names it. -/
def EvtPullRequest : String := "pull_request"

/-- LabelsAttribute is the key in a GitHub payload for the labels. -/
def LabelsAttribute : String := "pull_request.labels"

/-- A label as the upstream client returns it (`github.Label`). -/
structure Label where
  URL : Option String
  Name : Option String
  Color : Option String
  deriving DecidableEq, Repr

/-- The envelope of a queue message: event kind and delivery id. -/
structure partialMessage where
  GitHubEvent : String
  GitHubDelivery : String
  deriving DecidableEq, Repr

/-- A queue message (`nsq.Message`): body and receipt time in nanoseconds. -/
structure Message where
  Body : Bytes
  Timestamp : Int
  deriving DecidableEq, Repr

/-- Levels of the logger. -/
inductive Level where
  | Debug
  | Info
  | Error
  deriving DecidableEq, Repr

/-- Calls a handler makes to its collaborators, in the order of the trace. -/
inductive Call where
  | RLock
  | RUnlock
  | Log (level : Level) (format : String)
  | NewBlobFromPayload (event delivery : String) (payload : Bytes)
  | DataGet (key : String)
  | ListLabelsByIssue (user repo : String) (number : Int)
  | Index (dest : Storage) (repo : Repository) (blob : Blob)
  deriving Repr

/-- The call is a write to the store. -/
def Call.isIndex : Call → Bool
  | .Index _ _ _ => true
  | _ => false

/-- The call goes to the upstream client. -/
def Call.isUpstream : Call → Bool
  | .ListLabelsByIssue _ _ _ => true
  | _ => false

/-- The call builds a blob. -/
def Call.isNewBlob : Call → Bool
  | .NewBlobFromPayload _ _ _ => true
  | _ => false

/-- The call takes or releases the shared gate. -/
def Call.isGate : Call → Bool
  | .RLock => true
  | .RUnlock => true
  | _ => false

/-- The call reads an attribute of the payload. -/
def Call.isDataGet : Call → Bool
  | .DataGet _ => true
  | _ => false

/-- The upstream client: `Issues.ListLabelsByIssue(user, repo, number, opts)`
gives the labels and an error. -/
structure Client where
  ListLabelsByIssue : String → String → Int → List Label × Option GoError

/-- The store behind the handler: `Index(destination, repository, blob)`. -/
structure blobStore where
  Index : Storage → Repository → Blob → Option GoError

/-- Functions the handler calls that live outside the sources: the decoders
and encoders of `encoding/json`, and the blob constructor, which gives a blob
pointer (possibly nil) and an error. -/
structure Runtime where
  UnmarshalPartial : Bytes → Except GoError partialMessage
  NewBlobFromPayload : String → String → Bytes → Option Blob × Option GoError
  EncodeLabels : List Label → Except GoError Bytes
  UnmarshalArray : Bytes → Except GoError (List Json)

/-- The handler of one repository; `pauseLock` names the shared gate. -/
structure MessageHandler where
  client : Client
  repo : Repository
  store : blobStore
  pauseLock : Nat

/-- Embedding of `NewMessageHandler`; `NewTransformingBlobStore` is the store
the constructor of the store gives. -/
def NewMessageHandler (NewTransformingBlobStore : blobStore) (client : Client) (repo : Repository)
    (pauseLock : Nat) : MessageHandler :=
  { client := client, repo := repo, store := NewTransformingBlobStore, pauseLock := pauseLock }

/-- Calls made and outcome of a Go call returning an `error`. -/
structure Exec where
  calls : List Call
  out : Outcome (Option GoError)

/-- Calls made, outcome, and the blob behind the pointer after the call. -/
structure Prepared where
  calls : List Call
  blob : Option Blob
  out : Outcome (Option GoError)

/-! ## live.go -/

/-- Embedding of `MessageHandler.prepareForStorage`. -/
def prepareForStorage (rt : Runtime) (m : MessageHandler) (o : Option Blob) : Prepared :=
  match o with
  | none => ⟨[], none, .panicked⟩
  | some o =>
    if o.Kind ≠ EvtPullRequest ∨ o.HasAttribute LabelsAttribute = true then
      ⟨[], some o, .returned none⟩
    else
      let number := (o.Data.Get "number").MustInt
      let calls := [Call.DataGet "number", Call.Log .Debug "fetching labels for %s #%d",
        Call.ListLabelsByIssue m.repo.User m.repo.Repo number]
      match m.client.ListLabelsByIssue m.repo.User m.repo.Repo number with
      | (_, some err) =>
        ⟨calls, some o, .returned (some (.Errorf "retrieve labels for issue %d: %v" (some number) err))⟩
      | (l, none) =>
        match rt.EncodeLabels l with
        | .error err => ⟨calls, some o, .returned (some (.Errorf "serializing labels: %v" none err))⟩
        | .ok b =>
          match rt.UnmarshalArray b with
          | .error err => ⟨calls, some o, .returned (some (.Errorf "unserializing labels: %v" none err))⟩
          | .ok d => ⟨calls, some (o.Push LabelsAttribute (.arr d)), .returned none⟩

/-- Embedding of `MessageHandler.handleEvent`.  The error of
`NewBlobFromPayload` is assigned to `err` and `err` is then assigned the
result of `prepareForStorage` before it is read. -/
def handleEvent (rt : Runtime) (m : MessageHandler) (timestamp : Int) (event delivery : String)
    (payload : Bytes) : Exec :=
  if m.repo.IsSubscribed event = false then
    ⟨[Call.Log .Debug "ignoring event %q for repository %s"], .returned none⟩
  else
    let calls := [Call.Log .Info "receive event %q for repository %q",
      Call.NewBlobFromPayload event delivery payload]
    let b := (rt.NewBlobFromPayload event delivery payload).1
    let p := prepareForStorage rt m b
    match p.out with
    | .panicked => ⟨calls ++ p.calls, .panicked⟩
    | .returned (some err) =>
      ⟨calls ++ p.calls ++ [Call.Log .Error "preparing event %q for storage: %v"], .returned (some err)⟩
    | .returned none =>
      match p.blob with
      | none => ⟨calls ++ p.calls, .panicked⟩
      | some b =>
        let b := { b with Timestamp := Time.Unix 0 timestamp }
        ⟨calls ++ p.calls ++ [Call.Index .StoreLiveEvent m.repo b],
          .returned (m.store.Index .StoreLiveEvent m.repo b)⟩

/-- Embedding of `MessageHandler.HandleMessage`: the read lock is taken first
and the deferred unlock runs last, on a return as on a panic. -/
def HandleMessage (rt : Runtime) (m : MessageHandler) (n : Message) : Exec :=
  let body : Exec :=
    match rt.UnmarshalPartial n.Body with
    | .error _ => ⟨[Call.Log .Error "%v"], .returned none⟩
    | .ok p => handleEvent rt m n.Timestamp p.GitHubEvent p.GitHubDelivery n.Body
  ⟨Call.RLock :: body.calls ++ [Call.RUnlock], body.out⟩

/-- The generic array a label list decodes to: the list is serialized and the
text is read back as a sequence, as `prepareForStorage` does. -/
def genericLabels (rt : Runtime) (l : List Label) : Option (List Json) :=
  match rt.EncodeLabels l with
  | .error _ => none
  | .ok b =>
    match rt.UnmarshalArray b with
    | .error _ => none
    | .ok d => some d

/-! ## client.go and sync.go -/

/-- Modelled from the spec: the state filters are declared outside the
sources.  Open, closed or all issues. -/
inductive GithubStateFilter where
  | GithubStateFilterOpened
  | GithubStateFilterClosed
  | GithubStateFilterAll
  deriving DecidableEq, Repr

/-- Modelled from the spec: the options type of the sync job is declared
outside the sources.  Starting number, delay per page, state filter and
destination. -/
structure SyncOptions where
  From : Int
  SleepPerPage : Int
  State : GithubStateFilter
  Storage : Storage
  deriving DecidableEq, Repr

/-- The part of the configuration the commands read. -/
structure Config where
  GitHubAPIToken : String
  Repositories : List Repository
  Transformations : List String
  deriving DecidableEq, Repr

/-- An integer flag of a command (`cli.IntFlag`): name and default value. -/
structure IntFlag where
  Name : String
  Value : Int
  Usage : String
  deriving DecidableEq, Repr

/-- A command of the program (`cli.Command`), without its action. -/
structure Command where
  Name : String
  Usage : String
  Flags : List IntFlag
  deriving DecidableEq, Repr

/-- Embedding of `syncCommand`. -/
def syncCommand : Command where
  Name := "sync"
  Usage := "sync storage with the Github repositories"
  Flags := [⟨"from", 1, "issue number to start from"⟩,
    ⟨"sleep", 0, "sleep delay between each GitHub page queried"⟩]

/-- The context of a command run (`cli.Context`): the command, the integer
flags given on the command line, and the global `config` option. -/
structure Context where
  command : Command
  given : List (String × Int)
  globalConfig : String
  deriving DecidableEq, Repr

/-- Value given for a flag on the command line. -/
def lookupGiven (name : String) : List (String × Int) → Option Int
  | [] => none
  | (k, v) :: rest => if k = name then some v else lookupGiven name rest

/-- Declaration of a flag among the flags of a command. -/
def lookupFlag (name : String) : List IntFlag → Option IntFlag
  | [] => none
  | f :: rest => if f.Name = name then some f else lookupFlag name rest

/-- `c.Int(name)`: the value given on the command line, else the default of
the flag, and `0` for a name the command does not declare. -/
def Context.Int (c : Context) (name : String) : Int :=
  match lookupFlag name c.command.Flags with
  | none => 0
  | some f => (lookupGiven name c.given).getD f.Value

/-- Embedding of `NewClient`: the client is built over a token source when the
configured token is not empty, over the default transport (nil) otherwise.
`ghNewClient` is `gh.NewClient`. -/
def NewClient (ghNewClient : Option String → Client) (config : Config) : Client :=
  let tc : Option String := if config.GitHubAPIToken ≠ "" then some config.GitHubAPIToken else none
  ghNewClient tc

/-- What `doSyncCommand` needs from outside the sources: the configuration
parser (`none` when it ends the process), the library client constructor, the
store constructor and the default options. -/
structure SyncEnv where
  ParseConfigOrDie : String → Option Config
  ghNewClient : Option String → Client
  NewTransformingBlobStore : List String → blobStore
  DefaultSyncOptions : SyncOptions

/-- The sync job `doSyncCommand` creates and the repositories it runs it on. -/
structure SyncInvocation where
  client : Client
  blobStore : blobStore
  options : SyncOptions
  repos : List Repository

/-- Embedding of `doSyncCommand`, up to the call of `Run`. -/
def doSyncCommand (env : SyncEnv) (c : Context) : Option SyncInvocation :=
  match env.ParseConfigOrDie c.globalConfig with
  | none => none
  | some config =>
    let client := NewClient env.ghNewClient config
    let blobStore := env.NewTransformingBlobStore config.Transformations
    let repos := config.Repositories.foldl (fun acc r => acc ++ [r]) []
    let syncOptions := env.DefaultSyncOptions
    let syncOptions := { syncOptions with From := c.Int "from" }
    let syncOptions := { syncOptions with SleepPerPage := c.Int "sleep" }
    let syncOptions := { syncOptions with State := .GithubStateFilterAll }
    let syncOptions := { syncOptions with Storage := .StoreSnapshot }
    some ⟨client, blobStore, syncOptions, repos⟩

/-- Calls of the sync job, in the order of the trace. -/
inductive SyncCall where
  | ListPage (repo : Repository) (state : GithubStateFilter) (cursor : Int)
  | Sleep (delay : Int)
  | Index (dest : Storage) (repo : Repository) (blob : Blob)
  | LogSkipped
  | LogAborted
  deriving Repr

/-- The call requests a page. -/
def SyncCall.isPageRequest : SyncCall → Bool
  | .ListPage _ _ _ => true
  | _ => false

/-- The call writes a blob to the snapshot destination. -/
def SyncCall.isSnapshotWrite : SyncCall → Bool
  | .Index .StoreSnapshot _ _ => true
  | _ => false

/-- Modelled from the spec: the sync job is defined outside the sources.
Its options, the page size, the upstream page listing from a cursor, the
conversion of a fetched item to a blob, and the store. -/
structure SyncJob where
  options : SyncOptions
  PerPage : Nat
  ListPage : Repository → GithubStateFilter → Int → Except GoError (List Json)
  toBlob : Json → Except GoError Blob
  store : blobStore

/-- Modelled from the spec: the sync job is defined outside the sources.
One fetched item is converted to a blob and written to the destination of
the options; a failure of either step is logged and the item is skipped. -/
def SyncJob.writeItem (job : SyncJob) (repo : Repository) (item : Json) : List SyncCall :=
  match job.toBlob item with
  | .error _ => [.LogSkipped]
  | .ok b =>
    match job.store.Index job.options.Storage repo b with
    | some _ => [.LogSkipped]
    | none => [.Index job.options.Storage repo b]

/-- Modelled from the spec: the sync job is defined outside the sources.
Pages are requested from the cursor, every item of a page is written, the
cursor advances by the item count of the page, the job sleeps between pages
and stops at the first page with fewer items than the page size, or at a
failed page request.  `none` when the budget of page requests runs out. -/
def SyncJob.syncRepository (job : SyncJob) (repo : Repository) : Nat → Int → Option (List SyncCall)
  | 0, _ => none
  | fuel + 1, cursor =>
    match job.ListPage repo job.options.State cursor with
    | .error _ => some [.ListPage repo job.options.State cursor, .LogAborted]
    | .ok page =>
      let calls := SyncCall.ListPage repo job.options.State cursor :: page.flatMap (job.writeItem repo)
      if page.length < job.PerPage then some calls
      else
        match job.syncRepository repo fuel (cursor + page.length) with
        | none => none
        | some rest => some (calls ++ SyncCall.Sleep job.options.SleepPerPage :: rest)

/-- Modelled from the spec: the sync job is defined outside the sources.
`Run(repositories)` syncs the repositories one after the other, each from the
cursor `From`. -/
def SyncJob.Run (job : SyncJob) (fuel : Nat) : List Repository → Option (List SyncCall)
  | [] => some []
  | r :: rs =>
    match job.syncRepository r fuel job.options.From, job.Run fuel rs with
    | some a, some b => some (a ++ b)
    | _, _ => none

/-- Page of a history of items: up to `P` items from the cursor, the first
item of the history being at cursor `start`. -/
def pageOf (history : List Json) (start : Int) (P : Nat) (cursor : Int) : List Json :=
  (history.drop (cursor - start).toNat).take P

/-- Number of page requests in a trace. -/
def pageRequests (tr : List SyncCall) : Nat := tr.countP SyncCall.isPageRequest

/-- Number of snapshot writes in a trace. -/
def snapshotWrites (tr : List SyncCall) : Nat := tr.countP SyncCall.isSnapshotWrite

/-! ## Concrete handlers and jobs -/

/-- The label named `bug`. -/
def bugLabel : Label := ⟨none, some "bug", none⟩

/-- Text of one label, empty fields omitted. -/
def renderLabel (l : Label) : String :=
  let field (k : String) (v : Option String) : List String :=
    match v with
    | some s => ["\"" ++ k ++ "\":\"" ++ s ++ "\""]
    | none => []
  "\x7b" ++ String.intercalate "," (field "url" l.URL ++ field "name" l.Name ++ field "color" l.Color)
    ++ "\x7d"

/-- Text of a label list. -/
def renderLabels (ls : List Label) : String :=
  "[" ++ String.intercalate "," (ls.map renderLabel) ++ "]"

/-- Payload of a pull-request event for issue 42, without labels. -/
def prOpened : Json :=
  .obj [("action", .str "opened"), ("number", .num 42),
    ("pull_request", .obj [("title", .str "Fix the gate")])]

/-- Payload of a pull-request event for issue 7, without labels. -/
def prUnknown : Json :=
  .obj [("action", .str "opened"), ("number", .num 7), ("pull_request", .obj [])]

/-- Payload of a pull-request event that carries its labels. -/
def prLabelled : Json :=
  .obj [("number", .num 42), ("pull_request", .obj [("labels", .arr [])])]

/-- A repository subscribed to pull requests and issues. -/
def sampleRepository : Repository := ⟨"icecrime", "vossibility", ["pull_request", "issues"]⟩

/-- An upstream that knows issue 42, labelled `bug`, and no other issue. -/
def sampleClient : Client :=
  ⟨fun _ _ number => if number = 42 then ([bugLabel], none) else ([], some (.ext "404 Not Found"))⟩

/-- A store that accepts every blob. -/
def sampleStore : blobStore := ⟨fun _ _ _ => none⟩

/-- A runtime over four message bodies, each written by its name.  Three are
well-formed objects that carry the event kind `pull_request` and the delivery
id `d1`, so the envelope decodes from them: the blob constructor builds a blob
from `pr-opened` and from `pr-unknown`, and rejects `pr-odd-shape` for its
shape, with a nil blob and an error.  `push` is a well-formed push event.
Any other body is not well-formed and does not decode into the envelope. -/
def sampleRuntime : Runtime where
  UnmarshalPartial body :=
    if body = "pr-opened" ∨ body = "pr-unknown" ∨ body = "pr-odd-shape" then .ok ⟨"pull_request", "d1"⟩
    else if body = "push" then .ok ⟨"push", "d3"⟩
    else .error (.ext "invalid character")
  NewBlobFromPayload event delivery payload :=
    if payload = "pr-opened" then (some ⟨event, delivery, prOpened, ⟨0⟩⟩, none)
    else if payload = "pr-unknown" then (some ⟨event, delivery, prUnknown, ⟨0⟩⟩, none)
    else if payload = "push" then
      (some ⟨event, delivery, .obj [("ref", .str "refs/heads/master")], ⟨0⟩⟩, none)
    else if payload = "pr-odd-shape" then (none, some (.ext "unexpected shape"))
    else (none, some (.ext "invalid character"))
  EncodeLabels l := .ok (renderLabels l)
  UnmarshalArray b :=
    if b = renderLabels [bugLabel] then .ok [.obj [("name", .str "bug")]]
    else if b = renderLabels [] then .ok []
    else .error (.ext "unexpected text")

/-- The handler of the sample repository. -/
def sampleHandler : MessageHandler := NewMessageHandler sampleStore sampleClient sampleRepository 0

/-- A sync job over a history, with page size `P`, whose items are payloads
of issues and all convert. -/
def historyJob (history : List Json) (P : Nat) (opts : SyncOptions) : SyncJob where
  options := opts
  PerPage := P
  ListPage := fun _ _ cursor => .ok (pageOf history opts.From P cursor)
  toBlob := fun item => .ok ⟨"issues", "", item, ⟨0⟩⟩
  store := sampleStore

/-- Options as `doSyncCommand` sets them without flags. -/
def snapshotOptions : SyncOptions := ⟨1, 0, .GithubStateFilterAll, .StoreSnapshot⟩

/-- A context of the sync command with both flags given. -/
def sampleContext : Context := ⟨syncCommand, [("from", 120), ("sleep", 3)], "config.toml"⟩

/-- An environment of the sync command whose defaults differ from the flags. -/
def sampleSyncEnv : SyncEnv where
  ParseConfigOrDie := fun _ => some ⟨"", [sampleRepository], []⟩
  ghNewClient := fun _ => sampleClient
  NewTransformingBlobStore := fun _ => sampleStore
  DefaultSyncOptions := ⟨55, 9, .GithubStateFilterOpened, .StoreLiveEvent⟩

/-! ## Basic facts about attribute paths -/

theorem splitPath_LabelsAttribute : splitPath LabelsAttribute = ["pull_request", "labels"] := by
  decide

theorem getField_setField_same (k : String) (v : Json) (fs : List (String × Json)) :
    getField k (setField k v fs) = some v := by
  induction fs with
  | nil => simp [setField, getField]
  | cons kv rest ih =>
    obtain ⟨k0, v0⟩ := kv
    by_cases h : k0 = k
    · simp [setField, getField, h]
    · simp [setField, getField, h, ih]

theorem getField_setField_other (k k1 : String) (v : Json) (fs : List (String × Json))
    (hne : k1 ≠ k) : getField k1 (setField k v fs) = getField k1 fs := by
  induction fs with
  | nil => simp [setField, getField, Ne.symm hne]
  | cons kv rest ih =>
    obtain ⟨k0, v0⟩ := kv
    by_cases h : k0 = k
    · subst h
      simp [setField, getField, Ne.symm hne]
    · by_cases h1 : k0 = k1
      · subst h1
        simp [setField, getField, h]
      · simp [setField, getField, h, h1, ih]

/-- Reading a path just written gives the written value. -/
theorem getPath_setPath_same (p : List String) (v : Json) :
    ∀ j : Json, (j.setPath p v).getPath p = some v := by
  induction p with
  | nil => intro j; simp [Json.setPath, Json.getPath]
  | cons k ks ih =>
    intro j
    have hobj : ∀ fs : List (String × Json), (Json.obj fs).fields = fs := fun _ => rfl
    simp only [Json.setPath, Json.getPath, hobj, getField_setField_same]
    exact ih _

/-- Writing a path leaves every path that neither leads to it nor passes
through it as it was. -/
theorem getPath_setPath_frame (p : List String) (v : Json) :
    ∀ (q : List String) (j : Json), ¬ q <+: p → ¬ p <+: q →
      (j.setPath p v).getPath q = j.getPath q := by
  induction p with
  | nil => intro q j _ h; exact absurd (List.nil_prefix) h
  | cons k ks ih =>
    intro q j hq hp
    cases q with
    | nil => exact absurd (List.nil_prefix) hq
    | cons k1 qs =>
      by_cases hk : k1 = k
      · subst hk
        have hq1 : ¬ qs <+: ks := fun h => hq ((List.prefix_cons_inj k1).mpr h)
        have hp1 : ¬ ks <+: qs := fun h => hp ((List.prefix_cons_inj k1).mpr h)
        simp only [Json.setPath, Json.getPath]
        have hobj : ∀ fs : List (String × Json), (Json.obj fs).fields = fs := fun _ => rfl
        rw [hobj, getField_setField_same]
        simp only []
        rw [ih qs _ hq1 hp1]
        cases hf : getField k1 j.fields with
        | some c => simp
        | none =>
          cases qs with
          | nil => exact absurd (List.nil_prefix) hq1
          | cons k2 qs2 => simp [Json.getPath, Json.fields, getField]
      · have hobj : ∀ fs : List (String × Json), (Json.obj fs).fields = fs := fun _ => rfl
        simp only [Json.setPath, Json.getPath, hobj, getField_setField_other _ _ _ _ hk]

/-! ## The live handler -/

/-- Calls of `prepareForStorage` when it fetches the labels. -/
theorem prepareForStorage_calls_fetch (rt : Runtime) (m : MessageHandler) (o : Blob)
    (h : ¬ (o.Kind ≠ EvtPullRequest ∨ o.HasAttribute LabelsAttribute = true)) :
    (prepareForStorage rt m (some o)).calls =
      [Call.DataGet "number", Call.Log .Debug "fetching labels for %s #%d",
        Call.ListLabelsByIssue m.repo.User m.repo.Repo (o.Data.Get "number").MustInt] ∧
    ∃ b, (prepareForStorage rt m (some o)).blob = some b := by
  simp only [prepareForStorage, if_neg h]
  split
  · exact ⟨rfl, _, rfl⟩
  · split
    · exact ⟨rfl, _, rfl⟩
    · split
      · exact ⟨rfl, _, rfl⟩
      · exact ⟨rfl, _, rfl⟩

theorem prepareForStorage_blob_some (rt : Runtime) (m : MessageHandler) (o : Blob) :
    ∃ b, (prepareForStorage rt m (some o)).blob = some b := by
  by_cases h : o.Kind ≠ EvtPullRequest ∨ o.HasAttribute LabelsAttribute = true
  · exact ⟨o, by simp only [prepareForStorage, if_pos h]⟩
  · exact (prepareForStorage_calls_fetch rt m o h).2

theorem prepareForStorage_calls_no_index (rt : Runtime) (m : MessageHandler) (o : Option Blob) :
    ∀ c ∈ (prepareForStorage rt m o).calls, c.isIndex = false ∧ c.isNewBlob = false := by
  intro c hc
  cases o with
  | none => simp [prepareForStorage] at hc
  | some o =>
    by_cases h : o.Kind ≠ EvtPullRequest ∨ o.HasAttribute LabelsAttribute = true
    · simp only [prepareForStorage, if_pos h] at hc
      simp at hc
    · rw [(prepareForStorage_calls_fetch rt m o h).1] at hc
      simp at hc
      rcases hc with h1 | h1 | h1 <;> subst h1 <;> simp [Call.isIndex, Call.isNewBlob]

theorem handleEvent_calls_no_gate (rt : Runtime) (m : MessageHandler) (T : Int)
    (event delivery : String) (payload : Bytes) :
    ∀ c ∈ (handleEvent rt m T event delivery payload).calls, c.isGate = false := by
  have hprep : ∀ o, ∀ c ∈ (prepareForStorage rt m o).calls, c.isGate = false := by
    intro o c hc
    cases o with
    | none => simp [prepareForStorage] at hc
    | some o =>
      by_cases h : o.Kind ≠ EvtPullRequest ∨ o.HasAttribute LabelsAttribute = true
      · simp only [prepareForStorage, if_pos h] at hc
        simp at hc
      · rw [(prepareForStorage_calls_fetch rt m o h).1] at hc
        simp at hc
        rcases hc with h1 | h1 | h1 <;> subst h1 <;> rfl
  intro c hc
  simp only [handleEvent] at hc
  split at hc
  · simp at hc
    subst hc; rfl
  · split at hc
    · simp at hc
      rcases hc with h1 | h1 | h1
      · subst h1; rfl
      · subst h1; rfl
      · exact hprep _ c h1
    · simp at hc
      rcases hc with h1 | h1 | h1 | h1
      · subst h1; rfl
      · subst h1; rfl
      · exact hprep _ c h1
      · subst h1; rfl
    · split at hc
      · simp at hc
        rcases hc with h1 | h1 | h1
        · subst h1; rfl
        · subst h1; rfl
        · exact hprep _ c h1
      · simp at hc
        rcases hc with h1 | h1 | h1 | h1
        · subst h1; rfl
        · subst h1; rfl
        · exact hprep _ c h1
        · subst h1; rfl

/-- Within one invocation, the shared hold on the gate brackets all the work
of `HandleMessage`: the read lock is its first call, the unlock its last, on
every path, and no call in between touches the gate. -/
theorem HandleMessage_holds_gate (rt : Runtime) (m : MessageHandler) (n : Message) :
    ∃ body : List Call, (HandleMessage rt m n).calls = Call.RLock :: body ++ [Call.RUnlock] ∧
      ∀ c ∈ body, c.isGate = false := by
  simp only [HandleMessage]
  cases h : rt.UnmarshalPartial n.Body with
  | error e =>
    refine ⟨[Call.Log .Error "%v"], rfl, ?_⟩
    intro c hc
    simp at hc
    subst hc; rfl
  | ok p =>
    exact ⟨_, rfl, handleEvent_calls_no_gate rt m n.Timestamp p.GitHubEvent p.GitHubDelivery n.Body⟩

/-- C1: a queue message whose body does not decode into the envelope makes
`HandleMessage` return the nil error after logging, with no call to the
store and none to the upstream client. -/
theorem HandleMessage_decode_failure (rt : Runtime) (m : MessageHandler) (n : Message)
    (e : GoError) (h : rt.UnmarshalPartial n.Body = .error e) :
    (HandleMessage rt m n).out = .returned none ∧
    (HandleMessage rt m n).calls = [Call.RLock, Call.Log .Error "%v", Call.RUnlock] ∧
    (∀ c ∈ (HandleMessage rt m n).calls, c.isIndex = false ∧ c.isUpstream = false) := by
  have hc : (HandleMessage rt m n).calls = [Call.RLock, Call.Log .Error "%v", Call.RUnlock] := by
    simp [HandleMessage, h]
  refine ⟨by simp [HandleMessage, h], hc, ?_⟩
  intro c hmem
  rw [hc] at hmem
  simp at hmem
  rcases hmem with h1 | h1 | h1 <;> subst h1 <;> simp [Call.isIndex, Call.isUpstream]

theorem HandleMessage_decode_failure_witness :
    sampleRuntime.UnmarshalPartial (Message.mk "garbage" 5).Body = .error (.ext "invalid character") ∧
    ((HandleMessage sampleRuntime sampleHandler ⟨"garbage", 5⟩).out = .returned none ∧
    (HandleMessage sampleRuntime sampleHandler ⟨"garbage", 5⟩).calls
      = [Call.RLock, Call.Log .Error "%v", Call.RUnlock] ∧
    (∀ c ∈ (HandleMessage sampleRuntime sampleHandler ⟨"garbage", 5⟩).calls,
      c.isIndex = false ∧ c.isUpstream = false)) :=
  ⟨rfl, HandleMessage_decode_failure sampleRuntime sampleHandler ⟨"garbage", 5⟩ _ rfl⟩

/-- C2: for an event kind the repository of the handler does not subscribe
to, `handleEvent` returns the nil error, and its only call is a debug log: no
blob is built, nothing is written to the store, the upstream is not called. -/
theorem handleEvent_unsubscribed (rt : Runtime) (m : MessageHandler) (timestamp : Int)
    (event delivery : String) (payload : Bytes) (h : m.repo.IsSubscribed event = false) :
    (handleEvent rt m timestamp event delivery payload).out = .returned none ∧
    (handleEvent rt m timestamp event delivery payload).calls
      = [Call.Log .Debug "ignoring event %q for repository %s"] ∧
    (∀ c ∈ (handleEvent rt m timestamp event delivery payload).calls,
      c.isIndex = false ∧ c.isNewBlob = false ∧ c.isUpstream = false) := by
  have hrun : handleEvent rt m timestamp event delivery payload
      = ⟨[Call.Log .Debug "ignoring event %q for repository %s"], .returned none⟩ := by
    simp only [handleEvent]
    rw [if_pos h]
  rw [hrun]
  refine ⟨rfl, rfl, ?_⟩
  intro c hc
  simp at hc
  subst hc
  exact ⟨rfl, rfl, rfl⟩

theorem handleEvent_unsubscribed_witness :
    sampleHandler.repo.IsSubscribed "push" = false ∧
    ((handleEvent sampleRuntime sampleHandler 5 "push" "d3" "push").out = .returned none ∧
    (handleEvent sampleRuntime sampleHandler 5 "push" "d3" "push").calls
      = [Call.Log .Debug "ignoring event %q for repository %s"] ∧
    (∀ c ∈ (handleEvent sampleRuntime sampleHandler 5 "push" "d3" "push").calls,
      c.isIndex = false ∧ c.isNewBlob = false ∧ c.isUpstream = false)) :=
  ⟨by decide, handleEvent_unsubscribed sampleRuntime sampleHandler 5 "push" "d3" "push" (by decide)⟩

/-- C10: on a blob that is not a pull request, and on a pull-request blob that
already has a value at `pull_request.labels`, `prepareForStorage` returns the
nil error, leaves the blob as it is and makes no call at all: it does not
read the number and does not call the upstream. -/
theorem prepareForStorage_skips (rt : Runtime) (m : MessageHandler) (o : Blob)
    (h : o.Kind ≠ EvtPullRequest ∨ o.HasAttribute LabelsAttribute = true) :
    (prepareForStorage rt m (some o)).out = .returned none ∧
    (prepareForStorage rt m (some o)).blob = some o ∧
    (prepareForStorage rt m (some o)).calls = [] ∧
    (∀ c ∈ (prepareForStorage rt m (some o)).calls, c.isDataGet = false ∧ c.isUpstream = false) := by
  have hc : prepareForStorage rt m (some o) = ⟨[], some o, .returned none⟩ := by
    simp only [prepareForStorage]
    rw [if_pos h]
  rw [hc]
  simp

theorem prepareForStorage_skips_witness :
    ((Blob.mk "issues" "d9" prOpened ⟨0⟩).Kind ≠ EvtPullRequest ∨
      (Blob.mk "issues" "d9" prOpened ⟨0⟩).HasAttribute LabelsAttribute = true) ∧
    ((Blob.mk "pull_request" "d8" prLabelled ⟨0⟩).Kind ≠ EvtPullRequest ∨
      (Blob.mk "pull_request" "d8" prLabelled ⟨0⟩).HasAttribute LabelsAttribute = true) ∧
    ((prepareForStorage sampleRuntime sampleHandler (some ⟨"pull_request", "d8", prLabelled, ⟨0⟩⟩)).out
        = .returned none ∧
      (prepareForStorage sampleRuntime sampleHandler (some ⟨"pull_request", "d8", prLabelled, ⟨0⟩⟩)).blob
        = some ⟨"pull_request", "d8", prLabelled, ⟨0⟩⟩ ∧
      (prepareForStorage sampleRuntime sampleHandler (some ⟨"pull_request", "d8", prLabelled, ⟨0⟩⟩)).calls
        = [] ∧
      (∀ c ∈ (prepareForStorage sampleRuntime sampleHandler
          (some ⟨"pull_request", "d8", prLabelled, ⟨0⟩⟩)).calls,
        c.isDataGet = false ∧ c.isUpstream = false)) :=
  ⟨Or.inl (by decide), Or.inr (by decide),
    prepareForStorage_skips sampleRuntime sampleHandler ⟨"pull_request", "d8", prLabelled, ⟨0⟩⟩
      (Or.inr (by decide))⟩

/-- C3: on a pull-request blob with no value at `pull_request.labels`, when
`prepareForStorage` returns the nil error, the upstream listing for the number
of the blob succeeded, its label list decodes to a generic array, and the
blob is the result of pushing this array at `pull_request.labels`: it has a
present value at that path, which is this array;
kind, delivery id and timestamp are unchanged, and so is the value at every
path that neither leads to `pull_request.labels` nor passes through it. -/
theorem prepareForStorage_attaches_labels (rt : Runtime) (m : MessageHandler) (o : Blob)
    (hk : o.Kind = EvtPullRequest) (hl : o.HasAttribute LabelsAttribute = false)
    (hr : (prepareForStorage rt m (some o)).out = .returned none) :
    ∃ (d : List Json) (enriched : Blob),
      (m.client.ListLabelsByIssue m.repo.User m.repo.Repo (o.Data.Get "number").MustInt).2 = none ∧
      genericLabels rt
        (m.client.ListLabelsByIssue m.repo.User m.repo.Repo (o.Data.Get "number").MustInt).1 = some d ∧
      (prepareForStorage rt m (some o)).blob = some enriched ∧
      enriched = o.Push LabelsAttribute (.arr d) ∧
      enriched.HasAttribute LabelsAttribute = true ∧
      enriched.Data.getPath (splitPath LabelsAttribute) = some (.arr d) ∧
      enriched.Kind = o.Kind ∧ enriched.ID = o.ID ∧ enriched.Timestamp = o.Timestamp ∧
      (∀ q : List String, ¬ q <+: splitPath LabelsAttribute → ¬ splitPath LabelsAttribute <+: q →
        enriched.Data.getPath q = o.Data.getPath q) := by
  have hskip : ¬ (o.Kind ≠ EvtPullRequest ∨ o.HasAttribute LabelsAttribute = true) := by
    simp [hk, hl]
  simp only [prepareForStorage, if_neg hskip] at hr ⊢
  rcases hU : m.client.ListLabelsByIssue m.repo.User m.repo.Repo (o.Data.Get "number").MustInt
    with ⟨l, _ | err⟩
  · rw [hU] at hr
    simp only [] at hr ⊢
    cases hE : rt.EncodeLabels l with
    | error e => rw [hE] at hr; simp at hr
    | ok b =>
      rw [hE] at hr
      simp only [] at hr ⊢
      cases hD : rt.UnmarshalArray b with
      | error e => rw [hD] at hr; simp at hr
      | ok d =>
        refine ⟨d, o.Push LabelsAttribute (.arr d), ?_, ?_, ?_, rfl, ?_, ?_, rfl, rfl, rfl, ?_⟩
        · trivial
        · simp [genericLabels, hE, hD]
        · rfl
        · simp [Blob.HasAttribute, Blob.Push, getPath_setPath_same]
        · simp [Blob.Push, getPath_setPath_same]
        · intro q hq hp
          simp only [Blob.Push]
          exact getPath_setPath_frame _ _ q _ hq hp
  · rw [hU] at hr
    simp at hr

theorem prepareForStorage_attaches_labels_witness :
    (Blob.mk "pull_request" "d1" prOpened ⟨0⟩).Kind = EvtPullRequest ∧
    (Blob.mk "pull_request" "d1" prOpened ⟨0⟩).HasAttribute LabelsAttribute = false ∧
    (prepareForStorage sampleRuntime sampleHandler (some ⟨"pull_request", "d1", prOpened, ⟨0⟩⟩)).out
      = .returned none ∧
    ∃ (d : List Json) (enriched : Blob),
      (sampleHandler.client.ListLabelsByIssue sampleHandler.repo.User sampleHandler.repo.Repo
        ((Blob.mk "pull_request" "d1" prOpened ⟨0⟩).Data.Get "number").MustInt).2 = none ∧
      genericLabels sampleRuntime
        (sampleHandler.client.ListLabelsByIssue sampleHandler.repo.User sampleHandler.repo.Repo
          ((Blob.mk "pull_request" "d1" prOpened ⟨0⟩).Data.Get "number").MustInt).1 = some d ∧
      (prepareForStorage sampleRuntime sampleHandler (some ⟨"pull_request", "d1", prOpened, ⟨0⟩⟩)).blob
        = some enriched ∧
      enriched = (Blob.mk "pull_request" "d1" prOpened ⟨0⟩).Push LabelsAttribute (.arr d) ∧
      enriched.HasAttribute LabelsAttribute = true ∧
      enriched.Data.getPath (splitPath LabelsAttribute) = some (.arr d) ∧
      enriched.Kind = (Blob.mk "pull_request" "d1" prOpened ⟨0⟩).Kind ∧
      enriched.ID = (Blob.mk "pull_request" "d1" prOpened ⟨0⟩).ID ∧
      enriched.Timestamp = (Blob.mk "pull_request" "d1" prOpened ⟨0⟩).Timestamp ∧
      (∀ q : List String, ¬ q <+: splitPath LabelsAttribute → ¬ splitPath LabelsAttribute <+: q →
        enriched.Data.getPath q = (Blob.mk "pull_request" "d1" prOpened ⟨0⟩).Data.getPath q) :=
  ⟨rfl, by decide, rfl,
    prepareForStorage_attaches_labels sampleRuntime sampleHandler ⟨"pull_request", "d1", prOpened, ⟨0⟩⟩
      rfl (by decide) rfl⟩

/-- C6: on a subscribed event whose blob is a pull request with no value at
`pull_request.labels`, a failure of the upstream label listing makes
`prepareForStorage` return an error that wraps it and leave the blob as it
was, and `handleEvent` returns that error without any call to the store. -/
theorem handleEvent_upstream_failure (rt : Runtime) (m : MessageHandler) (timestamp : Int)
    (event delivery : String) (payload : Bytes) (o : Blob) (err : GoError)
    (hs : m.repo.IsSubscribed event = true)
    (hb : (rt.NewBlobFromPayload event delivery payload).1 = some o)
    (hk : o.Kind = EvtPullRequest) (hl : o.HasAttribute LabelsAttribute = false)
    (hu : (m.client.ListLabelsByIssue m.repo.User m.repo.Repo (o.Data.Get "number").MustInt).2
      = some err) :
    (prepareForStorage rt m (some o)).out = .returned (some
      (.Errorf "retrieve labels for issue %d: %v" (some (o.Data.Get "number").MustInt) err)) ∧
    (prepareForStorage rt m (some o)).blob = some o ∧
    (handleEvent rt m timestamp event delivery payload).out = .returned (some
      (.Errorf "retrieve labels for issue %d: %v" (some (o.Data.Get "number").MustInt) err)) ∧
    (∀ c ∈ (handleEvent rt m timestamp event delivery payload).calls, c.isIndex = false) := by
  have hskip : ¬ (o.Kind ≠ EvtPullRequest ∨ o.HasAttribute LabelsAttribute = true) := by
    simp [hk, hl]
  have hU : m.client.ListLabelsByIssue m.repo.User m.repo.Repo (o.Data.Get "number").MustInt
      = ((m.client.ListLabelsByIssue m.repo.User m.repo.Repo (o.Data.Get "number").MustInt).1,
        some err) := by
    rw [← hu]
  have hout : (prepareForStorage rt m (some o)).out = .returned (some
      (.Errorf "retrieve labels for issue %d: %v" (some (o.Data.Get "number").MustInt) err)) := by
    simp only [prepareForStorage, if_neg hskip]
    rw [hU]
  have hblob : (prepareForStorage rt m (some o)).blob = some o := by
    simp only [prepareForStorage, if_neg hskip]
    rw [hU]
  refine ⟨hout, hblob, ?_, ?_⟩
  · simp only [handleEvent, hs, hb, hout]
    simp
  · intro c hc
    simp only [handleEvent, hs, hb, hout] at hc
    simp at hc
    rcases hc with h1 | h1 | h1 | h1
    · subst h1; rfl
    · subst h1; rfl
    · exact (prepareForStorage_calls_no_index rt m (some o) c h1).1
    · subst h1; rfl

theorem handleEvent_upstream_failure_witness :
    sampleHandler.repo.IsSubscribed "pull_request" = true ∧
    (sampleRuntime.NewBlobFromPayload "pull_request" "d2" "pr-unknown").1
      = some ⟨"pull_request", "d2", prUnknown, ⟨0⟩⟩ ∧
    (Blob.mk "pull_request" "d2" prUnknown ⟨0⟩).HasAttribute LabelsAttribute = false ∧
    (sampleHandler.client.ListLabelsByIssue sampleHandler.repo.User sampleHandler.repo.Repo
      ((Blob.mk "pull_request" "d2" prUnknown ⟨0⟩).Data.Get "number").MustInt).2
      = some (.ext "404 Not Found") ∧
    ((prepareForStorage sampleRuntime sampleHandler (some ⟨"pull_request", "d2", prUnknown, ⟨0⟩⟩)).out
      = .returned (some (.Errorf "retrieve labels for issue %d: %v"
        (some ((Blob.mk "pull_request" "d2" prUnknown ⟨0⟩).Data.Get "number").MustInt)
        (.ext "404 Not Found"))) ∧
    (prepareForStorage sampleRuntime sampleHandler (some ⟨"pull_request", "d2", prUnknown, ⟨0⟩⟩)).blob
      = some ⟨"pull_request", "d2", prUnknown, ⟨0⟩⟩ ∧
    (handleEvent sampleRuntime sampleHandler 5 "pull_request" "d2" "pr-unknown").out
      = .returned (some (.Errorf "retrieve labels for issue %d: %v"
        (some ((Blob.mk "pull_request" "d2" prUnknown ⟨0⟩).Data.Get "number").MustInt)
        (.ext "404 Not Found"))) ∧
    (∀ c ∈ (handleEvent sampleRuntime sampleHandler 5 "pull_request" "d2" "pr-unknown").calls,
      c.isIndex = false)) :=
  ⟨by decide, rfl, by decide, rfl,
    handleEvent_upstream_failure sampleRuntime sampleHandler 5 "pull_request" "d2" "pr-unknown"
      ⟨"pull_request", "d2", prUnknown, ⟨0⟩⟩ (.ext "404 Not Found") (by decide) rfl rfl (by decide) rfl⟩

/-- C4: on a subscribed event whose blob is built without error and whose
`prepareForStorage` returns the nil error, `handleEvent` calls `Index` of the
store exactly once, with the live destination, the repository of the handler
and the enriched blob stamped with `time.Unix(0, T)`, the instant `T`
nanoseconds after the epoch, and returns what that call returns. -/
theorem handleEvent_indexes_live_once (rt : Runtime) (m : MessageHandler) (T : Int)
    (event delivery : String) (payload : Bytes) (b : Blob)
    (hs : m.repo.IsSubscribed event = true)
    (hb : rt.NewBlobFromPayload event delivery payload = (some b, none))
    (hp : (prepareForStorage rt m (some b)).out = .returned none) :
    ∃ enriched : Blob,
      (prepareForStorage rt m (some b)).blob = some enriched ∧
      (handleEvent rt m T event delivery payload).calls.filter Call.isIndex
        = [Call.Index .StoreLiveEvent m.repo { enriched with Timestamp := Time.Unix 0 T }] ∧
      (Time.Unix 0 T).unixNano = T ∧
      (handleEvent rt m T event delivery payload).out
        = .returned (m.store.Index .StoreLiveEvent m.repo { enriched with Timestamp := Time.Unix 0 T }) := by
  obtain ⟨enriched, he⟩ := prepareForStorage_blob_some rt m b
  have hnone : (prepareForStorage rt m (some b)).calls.filter Call.isIndex = [] := by
    rw [List.filter_eq_nil_iff]
    intro c hc
    simp [(prepareForStorage_calls_no_index rt m (some b) c hc).1]
  refine ⟨enriched, he, ?_, by simp [Time.Unix], ?_⟩
  · simp only [handleEvent, hs, hb, hp, he]
    simp [List.filter_cons, hnone, Call.isIndex]
  · simp only [handleEvent, hs, hb, hp, he]
    simp

theorem handleEvent_indexes_live_once_witness :
    sampleHandler.repo.IsSubscribed "pull_request" = true ∧
    sampleRuntime.NewBlobFromPayload "pull_request" "d1" "pr-opened"
      = (some ⟨"pull_request", "d1", prOpened, ⟨0⟩⟩, none) ∧
    (prepareForStorage sampleRuntime sampleHandler (some ⟨"pull_request", "d1", prOpened, ⟨0⟩⟩)).out
      = .returned none ∧
    (sampleHandler.client.ListLabelsByIssue "icecrime" "vossibility" 42).1 = [bugLabel] ∧
    (handleEvent sampleRuntime sampleHandler 1446336000000000000 "pull_request" "d1" "pr-opened").calls.filter
        Call.isIndex
      = [Call.Index .StoreLiveEvent sampleRepository
          ⟨"pull_request", "d1",
            .obj [("action", .str "opened"), ("number", .num 42),
              ("pull_request", .obj [("title", .str "Fix the gate"),
                ("labels", .arr [.obj [("name", .str "bug")]])])],
            ⟨1446336000000000000⟩⟩] ∧
    ∃ enriched : Blob,
      (prepareForStorage sampleRuntime sampleHandler (some ⟨"pull_request", "d1", prOpened, ⟨0⟩⟩)).blob
        = some enriched ∧
      (handleEvent sampleRuntime sampleHandler 1446336000000000000 "pull_request" "d1"
          "pr-opened").calls.filter Call.isIndex
        = [Call.Index .StoreLiveEvent sampleHandler.repo
            { enriched with Timestamp := Time.Unix 0 1446336000000000000 }] ∧
      (Time.Unix 0 1446336000000000000).unixNano = 1446336000000000000 ∧
      (handleEvent sampleRuntime sampleHandler 1446336000000000000 "pull_request" "d1" "pr-opened").out
        = .returned (sampleHandler.store.Index .StoreLiveEvent sampleHandler.repo
            { enriched with Timestamp := Time.Unix 0 1446336000000000000 }) :=
  ⟨by decide, rfl, rfl, rfl, rfl,
    handleEvent_indexes_live_once sampleRuntime sampleHandler 1446336000000000000 "pull_request" "d1"
      "pr-opened" ⟨"pull_request", "d1", prOpened, ⟨0⟩⟩ (by decide) rfl rfl⟩

/-- The error of `NewBlobFromPayload` is never read: `handleEvent` behaves as
it does over a constructor that gives the same blob pointer and no error. -/
theorem handleEvent_construction_error_unread (rt : Runtime) (m : MessageHandler) (T : Int)
    (event delivery : String) (payload : Bytes) :
    handleEvent rt m T event delivery payload =
      handleEvent
        { rt with NewBlobFromPayload := fun e d p => ((rt.NewBlobFromPayload e d p).1, none) }
        m T event delivery payload := by
  have hprep : ∀ o, prepareForStorage
      { rt with NewBlobFromPayload := fun e d p => ((rt.NewBlobFromPayload e d p).1, none) } m o
      = prepareForStorage rt m o := fun _ => rfl
  simp only [handleEvent, hprep]

/-- Whenever the blob constructor gives a nil blob with its error on a
subscribed event, `handleEvent` panics in `prepareForStorage` instead of
returning; its calls are the log and the construction, none to the store. -/
theorem handleEvent_nil_blob_panics (rt : Runtime) (m : MessageHandler) (T : Int)
    (event delivery : String) (payload : Bytes) (e : Option GoError)
    (hs : m.repo.IsSubscribed event = true)
    (hb : rt.NewBlobFromPayload event delivery payload = (none, e)) :
    handleEvent rt m T event delivery payload
      = ⟨[Call.Log .Info "receive event %q for repository %q",
          Call.NewBlobFromPayload event delivery payload], .panicked⟩ := by
  simp only [handleEvent, hs, hb]
  simp [prepareForStorage]

theorem pageOf_offset (history : List Json) (start : Int) (P k : Nat) :
    pageOf history start P (start + k) = (history.drop k).take P := by
  simp [pageOf]

theorem writeItem_counts (job : SyncJob) (repo : Repository) (page : List Json)
    (hdest : job.options.Storage = .StoreSnapshot)
    (hconv : ∀ item ∈ page, ∃ b, job.toBlob item = .ok b ∧
      job.store.Index job.options.Storage repo b = none) :
    pageRequests (page.flatMap (job.writeItem repo)) = 0 ∧
    snapshotWrites (page.flatMap (job.writeItem repo)) = page.length := by
  induction page with
  | nil => simp [pageRequests, snapshotWrites]
  | cons item rest ih =>
    obtain ⟨b, hb, hi⟩ := hconv item (List.mem_cons_self _ _)
    have hrest := ih (fun x hx => hconv x (List.mem_cons_of_mem _ hx))
    have hw : job.writeItem repo item = [.Index .StoreSnapshot repo b] := by
      simp only [SyncJob.writeItem, hb, hi]
      rw [hdest]
    simp only [pageRequests, snapshotWrites] at hrest ⊢
    simp only [List.flatMap_cons, hw, List.countP_append, hrest.1, hrest.2]
    simp [List.countP_cons, SyncCall.isPageRequest, SyncCall.isSnapshotWrite]
    omega

theorem syncRepository_counts (job : SyncJob) (repo : Repository) (history : List Json)
    (hP : 0 < job.PerPage)
    (hlist : ∀ cursor, job.ListPage repo job.options.State cursor
      = .ok (pageOf history job.options.From job.PerPage cursor))
    (hconv : ∀ item ∈ history, ∃ b, job.toBlob item = .ok b ∧
      job.store.Index job.options.Storage repo b = none)
    (hdest : job.options.Storage = .StoreSnapshot) :
    ∀ (fuel k : Nat), k ≤ history.length → (history.length - k) / job.PerPage + 1 ≤ fuel →
      ∃ tr, job.syncRepository repo fuel (job.options.From + k) = some tr ∧
        pageRequests tr = (history.length - k) / job.PerPage + 1 ∧
        snapshotWrites tr = history.length - k := by
  intro fuel
  induction fuel with
  | zero => intro k _ hf; exact absurd hf (Nat.not_succ_le_zero _)
  | succ fuel ih =>
    intro k hk hf
    have hpage : ∀ item ∈ (history.drop k).take job.PerPage, ∃ b, job.toBlob item = .ok b ∧
        job.store.Index job.options.Storage repo b = none :=
      fun item hi => hconv item (List.mem_of_mem_drop (List.mem_of_mem_take hi))
    obtain ⟨hreq, hwr⟩ := writeItem_counts job repo _ hdest hpage
    have hlen : ((history.drop k).take job.PerPage).length
        = min job.PerPage (history.length - k) := by
      simp [List.length_take, List.length_drop]
    simp only [SyncJob.syncRepository, hlist, pageOf_offset]
    by_cases hlt : history.length - k < job.PerPage
    · have hshort : ((history.drop k).take job.PerPage).length < job.PerPage := by
        rw [hlen]; omega
      rw [if_pos hshort]
      refine ⟨_, rfl, ?_, ?_⟩
      · simp only [pageRequests] at hreq ⊢
        rw [List.countP_cons, hreq, Nat.div_eq_of_lt hlt]
        simp [SyncCall.isPageRequest]
      · simp only [snapshotWrites] at hwr ⊢
        rw [List.countP_cons, hwr, hlen]
        simp [SyncCall.isSnapshotWrite]
        omega
    · have hfull : ((history.drop k).take job.PerPage).length = job.PerPage := by
        rw [hlen]; omega
      have hnot : ¬ ((history.drop k).take job.PerPage).length < job.PerPage := by
        rw [hfull]; omega
      rw [if_neg hnot, hfull]
      have hdiv : (history.length - k) / job.PerPage
          = (history.length - (k + job.PerPage)) / job.PerPage + 1 := by
        have h1 : history.length - k = (history.length - (k + job.PerPage)) + job.PerPage := by
          omega
        rw [h1, Nat.add_div_right _ hP]
      have hcur : job.options.From + (k : Int) + (job.PerPage : Int)
          = job.options.From + ((k + job.PerPage : Nat) : Int) := by
        push_cast; ring
      have hf1 : (history.length - (k + job.PerPage)) / job.PerPage + 1 ≤ fuel := by
        rw [hdiv] at hf; omega
      obtain ⟨rest, hrest, hr1, hr2⟩ := ih (k + job.PerPage) (by omega) hf1
      rw [hcur, hrest]
      refine ⟨_, rfl, ?_, ?_⟩
      · simp only [pageRequests] at hreq hr1 ⊢
        rw [List.cons_append, List.countP_cons, List.countP_append, List.countP_cons, hreq, hr1,
          hdiv]
        simp [SyncCall.isPageRequest]
      · simp only [snapshotWrites] at hwr hr2 ⊢
        rw [List.cons_append, List.countP_cons, List.countP_append, List.countP_cons, hwr, hr2,
          hfull]
        simp [SyncCall.isSnapshotWrite]
        omega

/-- C8, as amended: for a repository with a history of N items, a page size
P of at least 1, page requests that succeed and items that all convert and are
accepted by the store, `Run` over that repository, given a budget of at least
N / P + 1 page requests, ends with exactly N / P + 1 page requests (N / P
rounded down) and exactly N snapshot writes. -/
theorem Run_page_requests (job : SyncJob) (repo : Repository) (history : List Json) (fuel : Nat)
    (hP : 1 ≤ job.PerPage)
    (hlist : ∀ cursor, job.ListPage repo job.options.State cursor
      = .ok (pageOf history job.options.From job.PerPage cursor))
    (hconv : ∀ item ∈ history, ∃ b, job.toBlob item = .ok b ∧
      job.store.Index job.options.Storage repo b = none)
    (hdest : job.options.Storage = .StoreSnapshot)
    (hfuel : history.length / job.PerPage + 1 ≤ fuel) :
    ∃ tr, job.Run fuel [repo] = some tr ∧
      pageRequests tr = history.length / job.PerPage + 1 ∧
      snapshotWrites tr = history.length := by
  obtain ⟨tr, htr, h1, h2⟩ :=
    syncRepository_counts job repo history hP hlist hconv hdest fuel 0 (Nat.zero_le _) (by simpa using hfuel)
  refine ⟨tr, ?_, by simpa using h1, by simpa using h2⟩
  have h0 : job.syncRepository repo fuel job.options.From = some tr := by
    simpa using htr
  simp [SyncJob.Run, h0]

theorem Run_page_requests_witness :
    1 ≤ (historyJob [.num 1, .num 2, .num 3] 2 snapshotOptions).PerPage ∧
    (∃ tr, (historyJob [.num 1, .num 2, .num 3] 2 snapshotOptions).Run 4 [sampleRepository] = some tr ∧
      pageRequests tr
        = [Json.num 1, .num 2, .num 3].length / (historyJob [.num 1, .num 2, .num 3] 2 snapshotOptions).PerPage + 1 ∧
      snapshotWrites tr = [Json.num 1, .num 2, .num 3].length) ∧
    pageRequests (((historyJob [.num 1, .num 2, .num 3] 2 snapshotOptions).Run 4 [sampleRepository]).getD [])
      = 2 :=
  ⟨by decide,
    Run_page_requests (historyJob [.num 1, .num 2, .num 3] 2 snapshotOptions) sampleRepository
      [.num 1, .num 2, .num 3] 4 (by decide) (fun _ => rfl) (fun item _ => ⟨_, rfl, rfl⟩) rfl (by decide),
    by decide⟩

/-- C8 fails as stated: a history of one item with page size 2 is synced with
one page request, the first page being short, where the ceiling of 1 / 2 plus
one is two; the one item is written. -/
theorem short_first_page_one_request :
    pageRequests (((historyJob [.num 1] 2 snapshotOptions).Run 4 [sampleRepository]).getD []) = 1 ∧
    snapshotWrites (((historyJob [.num 1] 2 snapshotOptions).Run 4 [sampleRepository]).getD []) = 1 ∧
    ((historyJob [.num 1] 2 snapshotOptions).Run 4 [sampleRepository]).isSome = true ∧
    pageRequests (((historyJob [.num 1] 2 snapshotOptions).Run 4 [sampleRepository]).getD [])
      ≠ ([Json.num 1].length + 2 - 1) / 2 + 1 := by
  decide

/-- C9: when the configuration parses, the options `doSyncCommand` hands to
the sync job have `From` equal to the `from` flag, `SleepPerPage` equal to the
`sleep` flag, the state filter `all` and the snapshot destination, whatever
the default options hold; a flag of the sync command has the value given on
the command line, and `from` is 1 and `sleep` is 0 when not given. -/
theorem doSyncCommand_options (env : SyncEnv) (c : Context) (config : Config)
    (hcmd : c.command = syncCommand)
    (hcfg : env.ParseConfigOrDie c.globalConfig = some config) :
    ∃ inv, doSyncCommand env c = some inv ∧
      inv.options.From = c.Int "from" ∧
      inv.options.SleepPerPage = c.Int "sleep" ∧
      inv.options.State = .GithubStateFilterAll ∧
      inv.options.Storage = .StoreSnapshot ∧
      (∀ v, lookupGiven "from" c.given = some v → inv.options.From = v) ∧
      (∀ v, lookupGiven "sleep" c.given = some v → inv.options.SleepPerPage = v) ∧
      (lookupGiven "from" c.given = none → inv.options.From = 1) ∧
      (lookupGiven "sleep" c.given = none → inv.options.SleepPerPage = 0) := by
  have hfrom : c.Int "from" = (lookupGiven "from" c.given).getD 1 := by
    simp [Context.Int, hcmd, syncCommand, lookupFlag]
  have hsleep : c.Int "sleep" = (lookupGiven "sleep" c.given).getD 0 := by
    simp [Context.Int, hcmd, syncCommand, lookupFlag]
  refine ⟨⟨NewClient env.ghNewClient config, env.NewTransformingBlobStore config.Transformations,
    ⟨c.Int "from", c.Int "sleep", .GithubStateFilterAll, .StoreSnapshot⟩,
    config.Repositories.foldl (fun acc r => acc ++ [r]) []⟩,
    by simp only [doSyncCommand, hcfg], rfl, rfl, rfl, rfl, ?_, ?_, ?_, ?_⟩
  · intro v hv; simp [hfrom, hv]
  · intro v hv; simp [hsleep, hv]
  · intro hv; simp [hfrom, hv]
  · intro hv; simp [hsleep, hv]

theorem doSyncCommand_options_witness :
    sampleContext.command = syncCommand ∧
    sampleSyncEnv.ParseConfigOrDie sampleContext.globalConfig = some ⟨"", [sampleRepository], []⟩ ∧
    sampleSyncEnv.DefaultSyncOptions = ⟨55, 9, .GithubStateFilterOpened, .StoreLiveEvent⟩ ∧
    (doSyncCommand sampleSyncEnv sampleContext).map (fun inv => inv.options)
      = some ⟨120, 3, .GithubStateFilterAll, .StoreSnapshot⟩ ∧
    (doSyncCommand sampleSyncEnv ⟨syncCommand, [], "config.toml"⟩).map (fun inv => inv.options)
      = some ⟨1, 0, .GithubStateFilterAll, .StoreSnapshot⟩ ∧
    ∃ inv, doSyncCommand sampleSyncEnv sampleContext = some inv ∧
      inv.options.From = sampleContext.Int "from" ∧
      inv.options.SleepPerPage = sampleContext.Int "sleep" ∧
      inv.options.State = .GithubStateFilterAll ∧
      inv.options.Storage = .StoreSnapshot ∧
      (∀ v, lookupGiven "from" sampleContext.given = some v → inv.options.From = v) ∧
      (∀ v, lookupGiven "sleep" sampleContext.given = some v → inv.options.SleepPerPage = v) ∧
      (lookupGiven "from" sampleContext.given = none → inv.options.From = 1) ∧
      (lookupGiven "sleep" sampleContext.given = none → inv.options.SleepPerPage = 0) :=
  ⟨rfl, rfl, rfl, by decide, by decide,
    doSyncCommand_options sampleSyncEnv sampleContext ⟨"", [sampleRepository], []⟩ rfl rfl⟩

end Vossibility
